import Mathlib

/-!
Verification development for the oat/image dump metadata reader
(src/src/oatdump.cc).  The relevant C++ routines are shallowly embedded as
executable Lean functions over `Nat`:

* `ComputeSize` embeds `OatDumper::ComputeSize` — boundary inference over
  the registered offset set `offsets_`; `none` stands for the fatal
  `CHECK(it != offsets_.end())` abort.
* `vmapScanLoopF` / `DumpVmap` embed the spill-mask scanning loop of
  `OatDumper::DumpVmap`; `none` stands for the fatal
  `CHECK(!processing_fp)` abort.
* `DumpMappingTable` embeds `OatDumper::DumpMappingTable`.
* `ComputeOatSize` / `runQueries` embed `ImageDumper::ComputeOatSize`
  and its repeated use across one report session.
* `innerSweep` / `outerSweepF` / `dumpSizeOutliers` embed
  `ImageDumper::Stats::DumpOutliers`, with `checkedDiv` making the C++
  division by zero (undefined behaviour) explicit as `none`.
-/

namespace Oatdump

/-- View of a mapped oat file for boundary inference: the raw begin and
end addresses of the file and the registered region start offsets (the
C++ member `offsets_`, a `std::set<uint32_t>`, modelled as a list with
set-membership semantics). -/
structure OatView where
  Begin : Nat
  End : Nat
  offsets : List Nat
deriving DecidableEq

/-- Minimum of a list of naturals.  `std::set::upper_bound x` on the
sorted unique offset set returns the least registered offset strictly
greater than `x`, i.e. the minimum of the elements that pass the
strict-greater filter. -/
def listMin? : List Nat → Option Nat
  | [] => none
  | a :: tl =>
    some (match listMin? tl with
          | none => a
          | some m => min a m)

/-- OatDumper::ComputeSize.  An address outside the file yields size 0;
otherwise the result is the distance from the queried offset to the
least registered offset strictly greater than it, and `none` models the
fatal `CHECK` failure when no such offset exists. -/
def ComputeSize (f : OatView) (addr : Nat) : Option Nat :=
  if addr < f.Begin ∨ f.End < addr then some 0
  else
    match listMin? (f.offsets.filter (fun x => decide (addr - f.Begin < x))) with
    | none => none
    | some e => some (e - (addr - f.Begin))

/-- ComputeSize paired with the offset registry after the call: the C++
method only performs a `std::set` lookup on `offsets_`, so the registry
state is returned unchanged. -/
def ComputeSizeSt (f : OatView) (addr : Nat) : Option Nat × OatView :=
  (ComputeSize f addr, f)

/-- Physical slot descriptor printed by `OatDumper::DumpVmap`:
`core r` is printed as "r<r>", `fp r` as "fr<r>". -/
inductive VmapSlot where
  | core : Nat → VmapSlot
  | fp : Nat → VmapSlot
deriving DecidableEq

/-- The scanning while-loop of `OatDumper::DumpVmap`, iteration-bounded
by an explicit fuel argument so that the definition is structurally
recursive.  The state is (matched, spill_shifts, spill_mask,
processing_fp); `none` models the fatal `CHECK(!processing_fp)` abort
when both masks are exhausted.  The fuel only bounds the number of
iterations; the wrappers below pass fuel that provably never runs out
(see `vmapScanLoopF_false_eq`). -/
def vmapScanLoopF (fpMask target : Nat) :
    Nat → Nat → Nat → Nat → Bool → Option Nat
  | 0, _, _, _, _ => none
  | fuel + 1, matched, shifts, mask, pfp =>
    if matched = target then some shifts
    else if mask = 0 then
      if pfp then none
      else vmapScanLoopF fpMask target fuel (matched + fpMask % 2) (shifts + 1) (fpMask / 2) true
    else vmapScanLoopF fpMask target fuel (matched + mask % 2) (shifts + 1) (mask / 2) pfp

/-- The scan for table entry `i`: starting from the core spill mask,
find the `(i+1)`-th set bit and return the final `spill_shifts`
counter. -/
def vmapEntryShifts (coreMask fpMask i : Nat) : Option Nat :=
  vmapScanLoopF fpMask (i + 1) (coreMask + fpMask + 2) 0 0 coreMask false

/-- Slot printed for table entry `i`: `arm_reg = spill_shifts - 1`,
shown as a core register below 16 and as a floating point register
(offset by 16) otherwise. -/
def vmapEntrySlot (coreMask fpMask i : Nat) : Option VmapSlot :=
  (vmapEntryShifts coreMask fpMask i).map (fun shifts =>
    if shifts - 1 < 16 then VmapSlot.core (shifts - 1)
    else VmapSlot.fp (shifts - 1 - 16))

/-- Map a fallible function over a list, failing as soon as one element
fails (this is `mapM` specialised to `Option`; a `CHECK` abort inside
the C++ loop kills the whole surrounding computation). -/
def mapOpt (f : α → Option β) : List α → Option (List β)
  | [] => some []
  | a :: l =>
    match f a with
    | none => none
    | some b => (mapOpt f l).map (fun bs => b :: bs)

/-- OatDumper::DumpVmap — decode a whole vmap table against the two
spill masks; entry `i` pairs the dex register number `table[i]` with
its physical slot.  `none` models the fatal abort on exhausted spill
masks. -/
def DumpVmap (table : List Nat) (coreMask fpMask : Nat) :
    Option (List (Nat × VmapSlot)) :=
  mapOpt (fun p => (vmapEntrySlot coreMask fpMask p.1).map (fun s => (p.2, s)))
    table.enum

/-- The vmap dumps of a sequence of compiled units, as performed by one
report run.  A `CHECK` failure aborts the whole process, so a single
failing unit makes the entire run produce nothing. -/
def DumpVmapUnits (units : List (List Nat × Nat × Nat)) :
    Option (List (List (Nat × VmapSlot))) :=
  mapOpt (fun u => DumpVmap u.1 u.2.1 u.2.2) units

/-- Index of the `(n+1)`-th set bit (0-based `n`) in a bit stream. -/
def nthSetBit : List Bool → Nat → Option Nat
  | [], _ => none
  | b :: bs, n =>
    if b then
      if n = 0 then some 0 else (nthSetBit bs (n - 1)).map (· + 1)
    else (nthSetBit bs n).map (· + 1)

/-- The virtual bitstream described by the words of claim C3: all 32 GP
spill mask bits (low to high) followed by all 32 FP spill mask bits.
This definition follows the claim, not the source, and is compared
against the source decoder. -/
def claimStream (coreMask fpMask : Nat) : List Bool :=
  (List.range 32).map coreMask.testBit ++ (List.range 32).map fpMask.testBit

/-- Virtual-register-table decoder following the words of claim C3:
the slot of entry `i` is the index of the `(i+1)`-th set bit of
`claimStream`, reported as a GP register below 32 and as an FP register
offset by 32 otherwise. -/
def decodeVRTClaim (table : List Nat) (coreMask fpMask : Nat) :
    Option (List (Nat × VmapSlot)) :=
  mapOpt (fun p =>
      (nthSetBit (claimStream coreMask fpMask) p.1).map (fun s =>
        (p.2, if s < 32 then VmapSlot.core s else VmapSlot.fp (s - 32))))
    table.enum

/-- Fuel-bounded little-endian bit expansion (fuel ≥ n suffices, see
`bitsOf_eq`). -/
def bitsOfF : Nat → Nat → List Bool
  | 0, _ => []
  | fuel + 1, n =>
    if n = 0 then [] else decide (n % 2 = 1) :: bitsOfF fuel (n / 2)

/-- Little-endian bits of `n`, up to and including the highest set bit
(the empty list for 0).  This is exactly the sequence of low bits the
DumpVmap loop consumes from a mask before the mask becomes zero. -/
def bitsOf (n : Nat) : List Bool := bitsOfF n n

/-- Reference scan of a bit stream: needing `need` more set bits, with
`shifts` counting consumed bits; one list element corresponds to one
iteration of the DumpVmap while-loop. -/
def scanStream : List Bool → Nat → Nat → Option Nat
  | _, 0, shifts => some shifts
  | [], _ + 1, _ => none
  | b :: bs, need + 1, shifts =>
    scanStream bs (if b then need else need + 1) (shifts + 1)

/-- The virtual bitstream actually consumed by the source loop: the
core spill mask bits from bit 0 through the highest set bit, then the
fp spill mask bits likewise. -/
def amendedStream (coreMask fpMask : Nat) : List Bool :=
  bitsOf coreMask ++ bitsOf fpMask

/-- Virtual-register-table decoder in the amended formulation of claim
C3: the slot of entry `i` is the index of the `(i+1)`-th set bit of
`amendedStream`, reported as a GP register below 16 and as an FP
register offset by 16 otherwise. -/
def decodeVRTAmended (table : List Nat) (coreMask fpMask : Nat) :
    Option (List (Nat × VmapSlot)) :=
  mapOpt (fun p =>
      (nthSetBit (amendedStream coreMask fpMask) p.1).map (fun s =>
        (p.2, if s < 16 then VmapSlot.core s else VmapSlot.fp (s - 16))))
    table.enum

/-- Loop of `OatDumper::DumpMappingTable`: the word index `i` walks the
pair words two at a time up to `len`; a section separator is printed
after the pair whose word index satisfies `i + 2 = ptd`, so everything
up to and including that pair forms the first (pc-to-dex) section.
`none` models reading past the available words. -/
def mtLoop (len ptd : Nat) : Nat → List Nat → Option (List (Nat × Nat) × List (Nat × Nat))
  | i, a :: b :: rest =>
    if i < len then
      (mtLoop len ptd (i + 2) rest).map (fun fr =>
        if i + 2 = ptd then ([(a, b)], fr.1 ++ fr.2)
        else ((a, b) :: fr.1, fr.2))
    else some ([], [])
  | i, _ =>
    if i < len then none else some ([], [])

/-- OatDumper::DumpMappingTable: the blob starts with the total word
count and the pc-to-dex word count (each pair occupies two words),
followed by the pair words. -/
def DumpMappingTable (blob : List Nat) : Option (List (Nat × Nat) × List (Nat × Nat)) :=
  match blob with
  | len :: ptd :: rest => mtLoop len ptd 0 rest
  | _ => none

/-- Flatten a pair list into the word sequence of a mapping-table
blob body. -/
def flatPairs : List (Nat × Nat) → List Nat
  | [] => []
  | p :: ps => p.1 :: p.2 :: flatPairs ps

/-- ImageDumper::ComputeOatSize: the dedup flag comes from the
`already_seen_` set (here the list of previously queried addresses),
while the byte size is delegated to `OatDumper::ComputeSize`.  Returns
((size, first_occurrence), updated seen set). -/
def ComputeOatSize (f : OatView) (seen : List Nat) (addr : Nat) :
    (Option Nat × Bool) × List Nat :=
  if seen.contains addr then ((ComputeSize f addr, false), seen)
  else ((ComputeSize f addr, true), addr :: seen)

/-- One report session: answer a sequence of size queries, threading
the seen set through `ComputeOatSize`. -/
def runQueries (f : OatView) (seen : List Nat) : List Nat → List (Option Nat × Bool)
  | [] => []
  | a :: rest =>
    (ComputeOatSize f seen a).1 :: runQueries f (ComputeOatSize f seen a).2 rest

/-- State of one outlier sweep of `ImageDumper::Stats::DumpOutliers`:
the (destructively consumed) sample values, the `dumped_values` and
`skipped_values` counters, and the positions reported so far. -/
structure SweepResult (α : Type) where
  vals : List α
  dumped : Nat
  skipped : Nat
  reported : List Nat
deriving DecidableEq

/-- Inner scan of `DumpOutliers` at threshold `i`, generic in the
sample type and the qualification test (`qual i v` bundles the two
source conditions `cur > mean` and `(cur - mean)^2 > i^2 * variance`).
Qualifying samples are reported and zeroed while `dumped <= 20`; beyond
that cap they are counted as skipped when `i = 1`, and otherwise the
scan breaks out signalling the cap-exceeded jump (the source's
`i = 2; break`).  The second component of the result is that jump
flag. -/
def innerSweep {α : Type} (qual : Nat → α → Bool) (zero : α) (i : Nat) :
    List α → Nat → Nat → List Nat → Nat → SweepResult α × Bool
  | [], d, s, rep, _ => (⟨[], d, s, rep⟩, false)
  | v :: rest, d, s, rep, j =>
    if qual i v then
      if 20 < d then
        if i = 1 then
          let r := innerSweep qual zero i rest d (s + 1) rep (j + 1)
          (⟨v :: r.1.vals, r.1.dumped, r.1.skipped, r.1.reported⟩, r.2)
        else (⟨v :: rest, d, s, rep⟩, true)
      else
        let r := innerSweep qual zero i rest (d + 1) s (rep ++ [j]) (j + 1)
        (⟨zero :: r.1.vals, r.1.dumped, r.1.skipped, r.1.reported⟩, r.2)
    else
      let r := innerSweep qual zero i rest d s rep (j + 1)
      (⟨v :: r.1.vals, r.1.dumped, r.1.skipped, r.1.reported⟩, r.2)

/-- Outer threshold loop of `DumpOutliers` with explicit fuel (the
first threshold bounds the number of rounds, see `outerSweep`).  The
source loop decrements `i` each round; the cap-exceeded break assigns
`i = 2` so that the following `i--` continues the sweep at threshold 1.
Since the jump flag can only be set at thresholds above 1, the next
threshold after a jump is `min 1 i`, i.e. 1.  The second component
collects the thresholds whose scan was entered, in order. -/
def outerSweepF {α : Type} (qual : Nat → α → Bool) (zero : α) :
    Nat → Nat → List α → Nat → Nat → List Nat → SweepResult α × List Nat
  | 0, _, vals, d, s, rep => (⟨vals, d, s, rep⟩, [])
  | _ + 1, 0, vals, d, s, rep => (⟨vals, d, s, rep⟩, [])
  | fuel + 1, i + 1, vals, d, s, rep =>
    let r := innerSweep qual zero (i + 1) vals d s rep 0
    let r2 := outerSweepF qual zero fuel (if r.2 then min 1 i else i)
      r.1.vals r.1.dumped r.1.skipped r.1.reported
    (r2.1, (i + 1) :: r2.2)

/-- One full outlier sweep: thresholds from `i` down to 1. -/
def outerSweep {α : Type} (qual : Nat → α → Bool) (zero : α) (i : Nat)
    (vals : List α) (d s : Nat) (rep : List Nat) : SweepResult α × List Nat :=
  outerSweepF qual zero i i vals d s rep

/-- Division with the divisor-zero case made explicit: C++ `size_t`
division by zero is undefined behaviour (in practice a crash), modelled
as `none`. -/
def checkedDiv (a b : Nat) : Option Nat :=
  if b = 0 then none else some (a / b)

/-- Qualification test of the size pass: the sample exceeds the mean
and its squared deviation exceeds `i^2` times the variance. -/
def sizeQual (mean variance i v : Nat) : Bool :=
  decide (mean < v) && decide (i * i * variance < (v - mean) * (v - mean))

/-- ImageDumper::Stats::DumpOutliers, size metric: accumulate the sums,
compute the mean and the `(n-1)`-divided variance, then sweep
thresholds 100 down to 1.  Returns the final sweep state and the list
of visited thresholds; `none` models the division by zero the source
performs when fewer than two samples were accumulated. -/
def dumpSizeOutliers (sizes : List Nat) : Option (SweepResult Nat × List Nat) :=
  (checkedDiv sizes.sum sizes.length).bind (fun mean =>
    (checkedDiv ((sizes.map (fun x => x * x)).sum - sizes.sum * mean)
        (sizes.length - 1)).map (fun variance =>
      outerSweep (fun i v => sizeQual mean variance i v) 0 100 sizes 0 0 []))

/-- The (dumped, skipped) counters of the size sweep. -/
def sweepCounts (sizes : List Nat) : Option (Nat × Nat) :=
  (dumpSizeOutliers sizes).map (fun r => (r.1.dumped, r.1.skipped))

/-- The thresholds visited by the size sweep. -/
def sweepVisited (sizes : List Nat) : List Nat :=
  ((dumpSizeOutliers sizes).map (fun r => r.2)).getD []

/-- The descending threshold run `[lo + n, lo + n - 1, ..., lo + 1]`. -/
def descList (lo : Nat) : Nat → List Nat
  | 0 => []
  | n + 1 => (lo + n + 1) :: descList lo n

/-! ### Auxiliary lemmas -/

lemma listMin?_mem : ∀ (l : List Nat) (m : Nat), listMin? l = some m → m ∈ l := by
  intro l
  induction l with
  | nil => intro m h; simp [listMin?] at h
  | cons a tl ih =>
    intro m h
    rw [listMin?] at h
    rcases htl : listMin? tl with _ | mt
    · rw [htl] at h
      simp at h
      simp [h]
    · rw [htl] at h
      simp at h
      rcases min_choice a mt with hc | hc
      · have hm : m = a := (hc.symm.trans h).symm
        rw [hm]
        exact List.mem_cons_self a tl
      · have hm : m = mt := (hc.symm.trans h).symm
        rw [hm]
        exact List.mem_cons_of_mem a (ih mt htl)

lemma listMin?_le : ∀ (l : List Nat) (m : Nat), listMin? l = some m → ∀ y ∈ l, m ≤ y := by
  intro l
  induction l with
  | nil => intro m h; simp [listMin?] at h
  | cons a tl ih =>
    intro m h y hy
    rw [listMin?] at h
    rcases htl : listMin? tl with _ | mt
    · rw [htl] at h
      simp at h
      have : tl = [] := by
        cases tl with
        | nil => rfl
        | cons b tb => simp [listMin?] at htl
      subst this
      simp at hy
      omega
    · rw [htl] at h
      simp at h
      rcases List.mem_cons.mp hy with hya | hyt
      · subst hya
        omega
      · have := ih mt htl y hyt
        omega

lemma listMin?_eq_some (l : List Nat) (x : Nat) (hx : x ∈ l)
    (hle : ∀ y ∈ l, x ≤ y) : listMin? l = some x := by
  rcases hl : listMin? l with _ | m
  · cases l with
    | nil => simp at hx
    | cons a tl => simp [listMin?] at hl
  · have h1 := listMin?_mem l m hl
    have h2 := listMin?_le l m hl x hx
    have h3 := hle m h1
    have : m = x := le_antisymm h2 h3
    rw [this]

lemma listMin?_isSome (l : List Nat) (h : l ≠ []) : ∃ m, listMin? l = some m := by
  cases l with
  | nil => exact absurd rfl h
  | cons a tl => exact ⟨_, rfl⟩

lemma bitsOfF_zero : ∀ fuel, bitsOfF fuel 0 = [] := by
  intro fuel
  cases fuel <;> simp [bitsOfF]

lemma bitsOfF_congr : ∀ (f1 : Nat), ∀ f2 n, n ≤ f1 → n ≤ f2 → bitsOfF f1 n = bitsOfF f2 n := by
  intro f1
  induction f1 with
  | zero =>
    intro f2 n h1 _
    have : n = 0 := by omega
    subst this
    rw [bitsOfF_zero, bitsOfF_zero]
  | succ f1 ih =>
    intro f2 n h1 h2
    by_cases hn : n = 0
    · subst hn
      rw [bitsOfF_zero, bitsOfF_zero]
    · obtain ⟨f2', rfl⟩ : ∃ f2', f2 = f2' + 1 := ⟨f2 - 1, by omega⟩
      rw [bitsOfF, bitsOfF, if_neg hn, if_neg hn]
      have hd : n / 2 < n := Nat.div_lt_self (Nat.pos_of_ne_zero hn) one_lt_two
      rw [ih f2' (n / 2) (by omega) (by omega)]

lemma bitsOf_eq (n : Nat) :
    bitsOf n = if n = 0 then [] else decide (n % 2 = 1) :: bitsOf (n / 2) := by
  by_cases hn : n = 0
  · subst hn
    simp [bitsOf, bitsOfF]
  · obtain ⟨m, rfl⟩ : ∃ m, n = m + 1 := ⟨n - 1, by omega⟩
    rw [if_neg hn]
    show bitsOfF (m + 1) (m + 1) = _
    rw [bitsOfF, if_neg hn]
    have hd : (m + 1) / 2 < m + 1 := Nat.div_lt_self (by omega) one_lt_two
    rw [bitsOfF_congr m ((m + 1) / 2) ((m + 1) / 2) (by omega) le_rfl]
    rfl

lemma vmapScanLoopF_true_eq (fpMask t : Nat) :
    ∀ (fuel mask matched shifts : Nat), matched ≤ t → mask + 1 ≤ fuel →
      vmapScanLoopF fpMask t fuel matched shifts mask true =
        scanStream (bitsOf mask) (t - matched) shifts := by
  intro fuel
  induction fuel with
  | zero => intro mask matched shifts _ hf; omega
  | succ fuel ih =>
    intro mask matched shifts hmt hf
    by_cases hm : matched = t
    · subst hm
      simp [vmapScanLoopF, Nat.sub_self, scanStream]
    · have hlt : matched < t := lt_of_le_of_ne hmt hm
      obtain ⟨k, hk⟩ : ∃ k, t - matched = k + 1 := ⟨t - matched - 1, by omega⟩
      by_cases hz : mask = 0
      · subst hz
        rw [vmapScanLoopF, if_neg hm, if_pos rfl, if_pos rfl, bitsOf_eq, if_pos rfl, hk]
        simp [scanStream]
      · have hd : mask / 2 < mask := Nat.div_lt_self (Nat.pos_of_ne_zero hz) one_lt_two
        have hbits : bitsOf mask = decide (mask % 2 = 1) :: bitsOf (mask / 2) := by
          rw [bitsOf_eq mask, if_neg hz]
        rw [vmapScanLoopF, if_neg hm, if_neg hz,
          ih (mask / 2) (matched + mask % 2) (shifts + 1) (by omega) (by omega),
          hbits, hk, scanStream]
        rcases Nat.mod_two_eq_zero_or_one mask with h2 | h2 <;> rw [h2] <;> simp <;>
          congr 1 <;> omega

lemma vmapScanLoopF_false_eq (fpMask t : Nat) :
    ∀ (fuel mask matched shifts : Nat), matched ≤ t → mask + fpMask + 2 ≤ fuel →
      vmapScanLoopF fpMask t fuel matched shifts mask false =
        scanStream (bitsOf mask ++ bitsOf fpMask) (t - matched) shifts := by
  intro fuel
  induction fuel with
  | zero => intro mask matched shifts _ hf; omega
  | succ fuel ih =>
    intro mask matched shifts hmt hf
    by_cases hm : matched = t
    · subst hm
      simp [vmapScanLoopF, Nat.sub_self, scanStream]
    · have hlt : matched < t := lt_of_le_of_ne hmt hm
      obtain ⟨k, hk⟩ : ∃ k, t - matched = k + 1 := ⟨t - matched - 1, by omega⟩
      have hnil : bitsOf 0 = [] := by rw [bitsOf_eq]; simp
      by_cases hz : mask = 0
      · subst hz
        rw [vmapScanLoopF, if_neg hm, if_pos rfl, if_neg (by simp), hnil, List.nil_append]
        by_cases hfp : fpMask = 0
        · subst hfp
          rw [vmapScanLoopF_true_eq 0 t fuel 0 (matched + 0 % 2) (shifts + 1) (by omega) (by omega)]
          rw [hnil]
          have h1 : t - (matched + 0 % 2) = k + 1 := by omega
          rw [h1, hk]
          simp [scanStream]
        · have hd : fpMask / 2 < fpMask := Nat.div_lt_self (Nat.pos_of_ne_zero hfp) one_lt_two
          have hbits : bitsOf fpMask = decide (fpMask % 2 = 1) :: bitsOf (fpMask / 2) := by
            rw [bitsOf_eq fpMask, if_neg hfp]
          rw [vmapScanLoopF_true_eq fpMask t fuel (fpMask / 2) (matched + fpMask % 2)
            (shifts + 1) (by omega) (by omega)]
          rw [hbits, hk, scanStream]
          rcases Nat.mod_two_eq_zero_or_one fpMask with h2 | h2 <;> rw [h2] <;> simp <;>
            congr 1 <;> omega
      · have hd : mask / 2 < mask := Nat.div_lt_self (Nat.pos_of_ne_zero hz) one_lt_two
        have hbits : bitsOf mask = decide (mask % 2 = 1) :: bitsOf (mask / 2) := by
          rw [bitsOf_eq mask, if_neg hz]
        rw [vmapScanLoopF, if_neg hm, if_neg hz,
          ih (mask / 2) (matched + mask % 2) (shifts + 1) (by omega) (by omega),
          hbits, hk]
        rw [List.cons_append, scanStream]
        rcases Nat.mod_two_eq_zero_or_one mask with h2 | h2 <;> rw [h2] <;> simp <;>
          congr 1 <;> omega

lemma scanStream_eq_nthSetBit :
    ∀ (bits : List Bool) (n shifts : Nat),
      scanStream bits (n + 1) shifts = (nthSetBit bits n).map (· + (shifts + 1)) := by
  intro bits
  induction bits with
  | nil => intro n shifts; simp [scanStream, nthSetBit]
  | cons b bs ih =>
    intro n shifts
    rw [scanStream]
    cases b with
    | false =>
      rw [if_neg (by simp)]
      rw [ih n (shifts + 1), nthSetBit, if_neg (by simp)]
      cases h : nthSetBit bs n <;> simp [h] <;> omega
    | true =>
      rw [if_pos rfl]
      cases n with
      | zero => simp [scanStream, nthSetBit]
      | succ m =>
        rw [ih m (shifts + 1), nthSetBit, if_pos rfl, if_neg (by omega)]
        have : m + 1 - 1 = m := by omega
        rw [this]
        cases h : nthSetBit bs m <;> simp [h] <;> omega

lemma vmapEntryShifts_eq (coreMask fpMask i : Nat) :
    vmapEntryShifts coreMask fpMask i =
      (nthSetBit (amendedStream coreMask fpMask) i).map (· + 1) := by
  rw [vmapEntryShifts,
    vmapScanLoopF_false_eq fpMask (i + 1) (coreMask + fpMask + 2) coreMask 0 0
      (by omega) (by omega)]
  have h1 : i + 1 - 0 = i + 1 := by omega
  rw [h1, amendedStream, scanStream_eq_nthSetBit]

lemma vmapEntrySlot_eq (coreMask fpMask i : Nat) :
    vmapEntrySlot coreMask fpMask i =
      (nthSetBit (amendedStream coreMask fpMask) i).map (fun s =>
        if s < 16 then VmapSlot.core s else VmapSlot.fp (s - 16)) := by
  rw [vmapEntrySlot, vmapEntryShifts_eq]
  cases h : nthSetBit (amendedStream coreMask fpMask) i <;> simp

lemma mapOpt_congr {α β : Type} (f g : α → Option β) :
    ∀ (l : List α), (∀ a ∈ l, f a = g a) → mapOpt f l = mapOpt g l := by
  intro l
  induction l with
  | nil => intro _; rfl
  | cons a l ih =>
    intro h
    rw [mapOpt, mapOpt, h a (List.mem_cons_self a l),
      ih (fun b hb => h b (List.mem_cons_of_mem a hb))]

lemma mapOpt_none_of_mem {α β : Type} (f : α → Option β) :
    ∀ (l : List α) (a : α), a ∈ l → f a = none → mapOpt f l = none := by
  intro l
  induction l with
  | nil => intro a ha; simp at ha
  | cons b l ih =>
    intro a ha hfa
    rcases List.mem_cons.mp ha with h | h
    · subst h
      rw [mapOpt, hfa]
    · rw [mapOpt]
      cases hfb : f b
      · rfl
      · rw [ih a h hfa]
        rfl

lemma mtLoop_nil (len ptd i : Nat) :
    mtLoop len ptd i [] = if i < len then none else some ([], []) := rfl

lemma mtLoop_cons2 (len ptd i a b : Nat) (rest : List Nat) :
    mtLoop len ptd i (a :: b :: rest) =
      if i < len then
        (mtLoop len ptd (i + 2) rest).map (fun fr =>
          if i + 2 = ptd then ([(a, b)], fr.1 ++ fr.2)
          else ((a, b) :: fr.1, fr.2))
      else some ([], []) := rfl

lemma mtLoop_nosep (len ptd : Nat) :
    ∀ (ps : List (Nat × Nat)) (i : Nat), len = i + 2 * ps.length → ptd ≤ i →
      mtLoop len ptd i (flatPairs ps) = some (ps, []) := by
  intro ps
  induction ps with
  | nil =>
    intro i hlen _
    simp only [List.length_nil, Nat.mul_zero, Nat.add_zero] at hlen
    rw [flatPairs, mtLoop_nil, if_neg (by omega)]
  | cons p ps ih =>
    intro i hlen hptd
    have hlen' : len = i + 2 * ps.length + 2 := by
      simp only [List.length_cons] at hlen
      omega
    rw [flatPairs, mtLoop_cons2, if_pos (by omega),
      ih (i + 2) (by omega) (by omega), Option.map_some']
    rw [if_neg (by omega)]

lemma mtLoop_sep (len ptd : Nat) :
    ∀ (ps : List (Nat × Nat)) (i c : Nat), len = i + 2 * ps.length →
      ptd = i + 2 * c → 1 ≤ c → c ≤ ps.length →
      mtLoop len ptd i (flatPairs ps) = some (ps.take c, ps.drop c) := by
  intro ps
  induction ps with
  | nil => intro i c _ _ hc1 hc2; simp at hc2; omega
  | cons p ps ih =>
    intro i c hlen hptd hc1 hc2
    have hlen' : len = i + 2 * ps.length + 2 := by
      simp only [List.length_cons] at hlen
      omega
    have hc2' : c ≤ ps.length + 1 := by simpa using hc2
    rw [flatPairs, mtLoop_cons2, if_pos (by omega)]
    by_cases hc : c = 1
    · subst hc
      rw [mtLoop_nosep len ptd ps (i + 2) (by omega) (by omega), Option.map_some']
      rw [if_pos (by omega)]
      simp
    · rw [ih (i + 2) (c - 1) (by omega) (by omega) (by omega) (by omega),
        Option.map_some']
      rw [if_neg (by omega)]
      obtain ⟨c', rfl⟩ : ∃ c', c = c' + 1 := ⟨c - 1, by omega⟩
      simp

lemma runQueries_get? (f : OatView) :
    ∀ (qs seen : List Nat) (k q : Nat), qs.get? k = some q →
      (runQueries f seen qs).get? k =
        some (ComputeSize f q, !(seen ++ qs.take k).contains q) := by
  intro qs
  induction qs with
  | nil => intro seen k q h; simp at h
  | cons a qs ih =>
    intro seen k q h
    cases k with
    | zero =>
      simp at h
      subst h
      rw [runQueries]
      simp only [List.get?]
      by_cases hs : a ∈ seen
      · simp [ComputeOatSize, hs]
      · simp [ComputeOatSize, hs]
    | succ k =>
      simp only [List.get?] at h
      rw [runQueries]
      simp only [List.get?]
      rw [ih (ComputeOatSize f seen a).2 k q h]
      have hseen : ((ComputeOatSize f seen a).2 ++ qs.take k).contains q =
          ((seen ++ (a :: qs).take (k + 1)).contains q) := by
        rw [ComputeOatSize]
        by_cases hs : seen.contains a = true
        · rw [if_pos hs]
          have hmem : a ∈ seen := by simpa using hs
          simp only [List.take_succ_cons, List.contains, List.elem_eq_mem,
            List.mem_append, List.mem_cons, decide_eq_decide]
          constructor
          · tauto
          · rintro (h1 | h2 | h3) <;> first
              | tauto
              | (subst h2; exact Or.inl hmem)
        · rw [if_neg hs]
          simp only [List.take_succ_cons, List.contains, List.elem_eq_mem,
            List.cons_append, List.mem_append, List.mem_cons, decide_eq_decide]
          tauto
      rw [hseen]

lemma innerSweep_noqual {α : Type} (qual : Nat → α → Bool) (zero : α) (i : Nat) :
    ∀ (vals : List α) (d s : Nat) (rep : List Nat) (j : Nat),
      (∀ v ∈ vals, qual i v = false) →
      innerSweep qual zero i vals d s rep j = (⟨vals, d, s, rep⟩, false) := by
  intro vals
  induction vals with
  | nil => intro d s rep j _; rfl
  | cons v rest ih =>
    intro d s rep j h
    have hv : qual i v = false := h v (List.mem_cons_self v rest)
    rw [innerSweep, if_neg (by rw [hv]; simp),
      ih d s rep (j + 1) (fun w hw => h w (List.mem_cons_of_mem v hw))]

lemma innerSweep_one_beyond_cap {α : Type} (qual : Nat → α → Bool) (zero : α) :
    ∀ (vals : List α) (d s : Nat) (rep : List Nat) (j : Nat), 20 < d →
      innerSweep qual zero 1 vals d s rep j =
        (⟨vals, d, s + vals.countP (fun v => qual 1 v), rep⟩, false) := by
  intro vals
  induction vals with
  | nil => intro d s rep j _; simp [innerSweep]
  | cons v rest ih =>
    intro d s rep j hd
    by_cases hv : qual 1 v = true
    · rw [innerSweep, if_pos hv, if_pos hd, if_pos rfl, ih d (s + 1) rep (j + 1) hd]
      simp [List.countP_cons, hv]
      omega
    · rw [innerSweep, if_neg hv, ih d s rep (j + 1) hd]
      simp [List.countP_cons, hv]

lemma innerSweep_jump_ne_one {α : Type} (qual : Nat → α → Bool) (zero : α) :
    ∀ (vals : List α) (d s : Nat) (rep : List Nat) (j : Nat),
      (innerSweep qual zero 1 vals d s rep j).2 = false := by
  intro vals
  induction vals with
  | nil => intro d s rep j; rfl
  | cons v rest ih =>
    intro d s rep j
    rw [innerSweep]
    by_cases hv : qual 1 v = true
    · rw [if_pos hv]
      by_cases hd : 20 < d
      · rw [if_pos hd, if_pos rfl]
        exact ih d (s + 1) rep (j + 1)
      · rw [if_neg hd]
        exact ih (d + 1) s (rep ++ [j]) (j + 1)
    · rw [if_neg hv]
      exact ih d s rep (j + 1)

lemma innerSweep_dumped_le {α : Type} (qual : Nat → α → Bool) (zero : α) (i : Nat) :
    ∀ (vals : List α) (d s : Nat) (rep : List Nat) (j : Nat), d ≤ 21 →
      (innerSweep qual zero i vals d s rep j).1.dumped ≤ 21 := by
  intro vals
  induction vals with
  | nil => intro d s rep j hd; simpa [innerSweep] using hd
  | cons v rest ih =>
    intro d s rep j hd
    rw [innerSweep]
    by_cases hv : qual i v = true
    · rw [if_pos hv]
      by_cases hc : 20 < d
      · rw [if_pos hc]
        by_cases h1 : i = 1
        · rw [if_pos h1]
          exact ih d (s + 1) rep (j + 1) hd
        · rw [if_neg h1]
          simpa using hd
      · rw [if_neg hc]
        exact ih (d + 1) s (rep ++ [j]) (j + 1) (by omega)
    · rw [if_neg hv]
      exact ih d s rep (j + 1) hd

lemma innerSweep_reported_len {α : Type} (qual : Nat → α → Bool) (zero : α) (i : Nat) :
    ∀ (vals : List α) (d s : Nat) (rep : List Nat) (j : Nat),
      (innerSweep qual zero i vals d s rep j).1.reported.length + d =
        rep.length + (innerSweep qual zero i vals d s rep j).1.dumped := by
  intro vals
  induction vals with
  | nil => intro d s rep j; simp [innerSweep]
  | cons v rest ih =>
    intro d s rep j
    rw [innerSweep]
    by_cases hv : qual i v = true
    · rw [if_pos hv]
      by_cases hc : 20 < d
      · rw [if_pos hc]
        by_cases h1 : i = 1
        · rw [if_pos h1]
          simpa using ih d (s + 1) rep (j + 1)
        · rw [if_neg h1]
      · rw [if_neg hc]
        have := ih (d + 1) s (rep ++ [j]) (j + 1)
        simp at this ⊢
        omega
    · rw [if_neg hv]
      simpa using ih d s rep (j + 1)

lemma outerSweepF_thr_zero {α : Type} (qual : Nat → α → Bool) (zero : α) :
    ∀ (fuel : Nat) (vals : List α) (d s : Nat) (rep : List Nat),
      outerSweepF qual zero fuel 0 vals d s rep = (⟨vals, d, s, rep⟩, []) := by
  intro fuel vals d s rep
  cases fuel <;> rfl

lemma outerSweepF_dumped_le {α : Type} (qual : Nat → α → Bool) (zero : α) :
    ∀ (fuel thr : Nat) (vals : List α) (d s : Nat) (rep : List Nat), d ≤ 21 →
      (outerSweepF qual zero fuel thr vals d s rep).1.dumped ≤ 21 := by
  intro fuel
  induction fuel with
  | zero => intro thr vals d s rep hd; simpa [outerSweepF] using hd
  | succ fuel ih =>
    intro thr vals d s rep hd
    cases thr with
    | zero => simpa [outerSweepF] using hd
    | succ i =>
      rw [outerSweepF]
      exact ih _ _ _ _ _ (innerSweep_dumped_le qual zero (i + 1) vals d s rep 0 hd)

lemma outerSweepF_reported_len {α : Type} (qual : Nat → α → Bool) (zero : α) :
    ∀ (fuel thr : Nat) (vals : List α) (d s : Nat) (rep : List Nat),
      (outerSweepF qual zero fuel thr vals d s rep).1.reported.length + d =
        rep.length + (outerSweepF qual zero fuel thr vals d s rep).1.dumped := by
  intro fuel
  induction fuel with
  | zero => intro thr vals d s rep; simp [outerSweepF]
  | succ fuel ih =>
    intro thr vals d s rep
    cases thr with
    | zero => simp [outerSweepF]
    | succ i =>
      rw [outerSweepF]
      dsimp only
      have h1 := innerSweep_reported_len qual zero (i + 1) vals d s rep 0
      have h2 := ih (if (innerSweep qual zero (i + 1) vals d s rep 0).2 then min 1 i else i)
        (innerSweep qual zero (i + 1) vals d s rep 0).1.vals
        (innerSweep qual zero (i + 1) vals d s rep 0).1.dumped
        (innerSweep qual zero (i + 1) vals d s rep 0).1.skipped
        (innerSweep qual zero (i + 1) vals d s rep 0).1.reported
      omega

lemma outerSweepF_calm {α : Type} (qual : Nat → α → Bool) (zero : α) (lo : Nat) :
    ∀ (n : Nat) (vals : List α) (d s : Nat) (rep : List Nat),
      (∀ t v, lo < t → v ∈ vals → qual t v = false) →
      outerSweepF qual zero (lo + n) (lo + n) vals d s rep =
        ((outerSweepF qual zero lo lo vals d s rep).1,
          descList lo n ++ (outerSweepF qual zero lo lo vals d s rep).2) := by
  intro n
  induction n with
  | zero => intro vals d s rep _; simp [descList]
  | succ n ih =>
    intro vals d s rep h
    have hstep : lo + (n + 1) = (lo + n) + 1 := by omega
    rw [hstep, outerSweepF,
      innerSweep_noqual qual zero (lo + n + 1) vals d s rep 0
        (fun v hv => h (lo + n + 1) v (by omega) hv)]
    simp only []
    rw [show (if (false : Bool) then min 1 (lo + n) else lo + n) = lo + n from by simp]
    rw [ih vals d s rep h, descList]
    simp

/-! ### Claim theorems -/

/-- C1: for offsets `o1 < o2` that are both registered and adjacent in
the registry (no registered offset lies strictly between them), a size
query at address `Begin + o1` inside the file returns exactly
`o2 - o1`: the least registered offset strictly greater than the query
offset, minus the query offset. -/
theorem c1_sizeOf_adjacent (f : OatView) (o1 o2 : Nat)
    (h1 : o1 ∈ f.offsets) (h2 : o2 ∈ f.offsets) (h12 : o1 < o2)
    (hadj : ∀ x ∈ f.offsets, o1 < x → o2 ≤ x)
    (hin : f.Begin + o1 ≤ f.End) :
    ComputeSize f (f.Begin + o1) = some (o2 - o1) := by
  rw [ComputeSize, if_neg (by omega)]
  have hoff : f.Begin + o1 - f.Begin = o1 := by omega
  simp only [hoff]
  have hmem : o2 ∈ f.offsets.filter (fun x => decide (o1 < x)) := by
    rw [List.mem_filter]
    exact ⟨h2, by simpa using h12⟩
  have hle : ∀ y ∈ f.offsets.filter (fun x => decide (o1 < x)), o2 ≤ y := by
    intro y hy
    rcases List.mem_filter.mp hy with ⟨hy1, hy2⟩
    exact hadj y hy1 (by simpa using hy2)
  rw [listMin?_eq_some _ o2 hmem hle]

/-- Witness for C1 at a concrete registry: offsets 0 and 4 are adjacent
in {0, 4, 10}, so the size of the region at offset 0 is 4. -/
theorem c1_sizeOf_adjacent_witness :
    ComputeSize ⟨100, 110, [0, 4, 10]⟩ 100 = some 4 := by
  have h := c1_sizeOf_adjacent ⟨100, 110, [0, 4, 10]⟩ 0 4 (by decide) (by decide)
    (by decide) (by decide) (by decide)
  simpa using h

/-- C2 counterexample: with the closing sentinel (offset
End - Begin = 10) registered, the query at address 10 lies inside
`[Begin, End]` yet hits the fatal no-successor `CHECK` (modelled as
`none`), because `upper_bound` is strict.  This refutes the claim that
sizeOf never fails for queried offsets inside `[Begin, End]`. -/
theorem c2_query_at_end_aborts :
    ComputeSize ⟨0, 10, [0, 4, 10]⟩ 10 = none ∧
    (0 : Nat) ≤ 10 ∧ (10 : Nat) ≤ 10 := by decide

/-- C2 (amended): once the sentinel offset `End - Begin` is registered,
a size query never hits the fatal no-successor abort for any address in
the half-open range `[Begin, End)`; only the exact end address (or an
address beyond any registered offset) can reach the abort. -/
theorem c2_no_fail_below_end (f : OatView) (addr : Nat)
    (hs : f.End - f.Begin ∈ f.offsets)
    (h1 : f.Begin ≤ addr) (h2 : addr < f.End) :
    ComputeSize f addr ≠ none := by
  rw [ComputeSize, if_neg (by omega)]
  have hmem : f.End - f.Begin ∈ f.offsets.filter (fun x => decide (addr - f.Begin < x)) := by
    rw [List.mem_filter]
    refine ⟨hs, ?_⟩
    simp
    omega
  obtain ⟨m, hm⟩ := listMin?_isSome _ (List.ne_nil_of_mem hmem)
  rw [hm]
  simp

/-- Witness for the amended C2 at a concrete in-range query. -/
theorem c2_no_fail_below_end_witness :
    ComputeSize ⟨0, 10, [0, 4, 10]⟩ 5 ≠ none :=
  c2_no_fail_below_end ⟨0, 10, [0, 4, 10]⟩ 5 (by decide) (by decide) (by decide)

/-- C10: a query at an address strictly below Begin or strictly above
End returns size 0 and leaves the offset registry unchanged; in
particular the fatal no-successor path is not reachable from outside
`[Begin, End]`. -/
theorem c10_outside_returns_zero (f : OatView) (addr : Nat)
    (h : addr < f.Begin ∨ f.End < addr) :
    ComputeSizeSt f addr = (some 0, f) := by
  rw [ComputeSizeSt, ComputeSize, if_pos h]

/-- Witness for C10 at a concrete out-of-range address. -/
theorem c10_outside_returns_zero_witness :
    ComputeSizeSt ⟨100, 110, [0, 4, 10]⟩ 7 = (some 0, ⟨100, 110, [0, 4, 10]⟩) :=
  c10_outside_returns_zero ⟨100, 110, [0, 4, 10]⟩ 7 (Or.inl (by decide))

/-- C3 counterexample: with an empty GP mask and FP mask bit 0 set, the
source decoder scans zero GP bits before switching to the FP mask, so
table entry 0 lands at `arm_reg = 0` and is printed as GP register r0;
the claim's 32-bit concatenated stream with threshold 32 instead yields
FP register fr0.  The claim's decoder therefore disagrees with the
code. -/
theorem c3_stream32_counterexample :
    DumpVmap [5] 0 1 = some [(5, VmapSlot.core 0)] ∧
    decodeVRTClaim [5] 0 1 = some [(5, VmapSlot.fp 0)] := by decide

/-- C3 (amended): the source decoder equals the decoder over the
truncated concatenated stream — GP mask bits up to the highest set bit,
then FP mask bits — with the physical slot reported as a GP register
when the matched index is below 16 and as an FP register offset by 16
otherwise. -/
theorem c3_decode_truncated_stream16 (table : List Nat) (coreMask fpMask : Nat) :
    DumpVmap table coreMask fpMask = decodeVRTAmended table coreMask fpMask := by
  rw [DumpVmap, decodeVRTAmended]
  apply mapOpt_congr
  intro p _
  rw [vmapEntrySlot_eq]
  cases h : nthSetBit (amendedStream coreMask fpMask) p.1 <;> simp

/-- C9 counterexample: a unit whose vmap table cannot be decoded (both
spill masks exhaust before the required set bit is found) makes the
whole multi-unit dump produce nothing — the `CHECK` abort is fatal to
the report — even though the second unit decodes fine on its own. -/
theorem c9_fatal_counterexample :
    DumpVmapUnits [([5], 0, 0), ([5], 3, 0)] = none ∧
    DumpVmap [5] 3 0 = some [(5, VmapSlot.core 0)] := by decide

/-- C9 (amended): when decoding any unit's virtual-register table
exhausts both spill masks, the failure is fatal for the entire report:
the whole run aborts, regardless of how many well-formed units precede
or follow the malformed one. -/
theorem c9_failure_is_fatal (pre post : List (List Nat × Nat × Nat))
    (t : List Nat) (c fp : Nat) (h : DumpVmap t c fp = none) :
    DumpVmapUnits (pre ++ (t, c, fp) :: post) = none := by
  rw [DumpVmapUnits]
  exact mapOpt_none_of_mem _ _ (t, c, fp)
    (List.mem_append_right pre (List.mem_cons_self _ _)) h

/-- Witness for the amended C9: a malformed unit placed after a
well-formed one still aborts the whole report. -/
theorem c9_failure_is_fatal_witness :
    DumpVmapUnits [([5], 3, 0), ([5], 0, 0)] = none :=
  c9_failure_is_fatal [([5], 3, 0)] [] [5] 0 0 (by decide)

/-- C8 counterexample: on the claim's example blob — count fields 4 and
2 followed by the four pairs (0x10, 3), (0x20, 5), (3, 0x10),
(5, 0x20) — the code reads the counts as word counts (two words per
pair), so it decodes only two pairs and splits them as
forward = [(0x10, 3)], reverse = [(0x20, 5)], not the claimed
forward = first two pairs, reverse = last two pairs. -/
theorem c8_word_count_counterexample :
    DumpMappingTable [4, 2, 16, 3, 32, 5, 3, 16, 5, 32] =
      some ([(16, 3)], [(32, 5)]) ∧
    DumpMappingTable [4, 2, 16, 3, 32, 5, 3, 16, 5, 32] ≠
      some ([(16, 3), (32, 5)], [(3, 16), (5, 32)]) := by decide

/-- C8 (amended): the split is purely positional, with the count fields
measured in words (two words per pair): a blob with total word count
`2 * |pairs|` and forward word count `2 * fwd` decodes to the first
`fwd` pairs as the forward section and the rest as the reverse
section. -/
theorem c8_positional_split (ps : List (Nat × Nat)) (fwd : Nat)
    (hf1 : 1 ≤ fwd) (hf2 : fwd ≤ ps.length) :
    DumpMappingTable (2 * ps.length :: 2 * fwd :: flatPairs ps) =
      some (ps.take fwd, ps.drop fwd) := by
  show mtLoop (2 * ps.length) (2 * fwd) 0 (flatPairs ps) = _
  exact mtLoop_sep (2 * ps.length) (2 * fwd) ps 0 fwd (by omega) (by omega) hf1 hf2

/-- Witness for the amended C8: with word counts 8 and 4 the example
pairs split exactly as the spec example intends. -/
theorem c8_positional_split_witness :
    DumpMappingTable [8, 4, 16, 3, 32, 5, 3, 16, 5, 32] =
      some ([(16, 3), (32, 5)], [(3, 16), (5, 32)]) := by
  have h := c8_positional_split [(16, 3), (32, 5), (3, 16), (5, 32)] 2
    (by decide) (by decide)
  have hblob : (2 * List.length [((16 : Nat), (3 : Nat)), (32, 5), (3, 16), (5, 32)] ::
      2 * 2 :: flatPairs [(16, 3), (32, 5), (3, 16), (5, 32)] : List Nat) =
      [8, 4, 16, 3, 32, 5, 3, 16, 5, 32] := by decide
  have hres : (List.take 2 [((16 : Nat), (3 : Nat)), (32, 5), (3, 16), (5, 32)],
      List.drop 2 [((16 : Nat), (3 : Nat)), (32, 5), (3, 16), (5, 32)]) =
      ([(16, 3), (32, 5)], [(3, 16), (5, 32)]) := by decide
  rw [hblob, hres] at h
  exact h

/-- C7: across one report session started with an empty seen set, the
k-th query's first-occurrence flag is true exactly when its address
does not occur among the earlier queries, and the returned byte size is
delegated to the boundary-inference lookup `ComputeSize`. -/
theorem c7_first_occurrence (f : OatView) (qs : List Nat) (k q : Nat)
    (h : qs.get? k = some q) :
    (runQueries f [] qs).get? k =
      some (ComputeSize f q, !(qs.take k).contains q) := by
  have := runQueries_get? f qs [] k q h
  simpa using this

/-- Witness for C7: querying the same address twice yields
first_occurrence = true then false, with the same delegated size. -/
theorem c7_first_occurrence_witness :
    (runQueries ⟨0, 10, [0, 4, 10]⟩ [] [7, 7]).get? 1 = some (some 3, false) := by
  have h := c7_first_occurrence ⟨0, 10, [0, 4, 10]⟩ [7, 7] 1 7 (by decide)
  rw [h]
  decide

/-- C6 (code bug): with fewer than two samples the source performs its
mean/variance computation anyway — for a single sample it divides by
n - 1 = 0 (and for no samples by n = 0), which is undefined behaviour
in C++ (modelled as `none`) instead of the claimed skip of outlier
reporting. -/
theorem c6_small_sample_divzero :
    dumpSizeOutliers [10] = none ∧ dumpSizeOutliers [] = none := by decide

set_option maxRecDepth 400000

/-- C4 counterexample: 25 samples of size 3 and 25 of size 0 give
mean 1 and variance 3, so all 25 large samples qualify simultaneously
and only at threshold k = 1; the sweep then reports 21 of them (the
guard is `dumped_values > 20`, which lets the 21st report through) and
skips 4, refuting the claimed cap of exactly 20. -/
theorem c4_cap_counterexample :
    sweepCounts (List.replicate 25 3 ++ List.replicate 25 0) = some (21, 4) := by
  have h1 : checkedDiv (List.replicate 25 3 ++ List.replicate 25 0 : List Nat).sum
      (List.replicate 25 3 ++ List.replicate 25 0 : List Nat).length = some 1 := by decide
  have h2 : checkedDiv
      (((List.replicate 25 3 ++ List.replicate 25 0 : List Nat).map (fun x => x * x)).sum -
        (List.replicate 25 3 ++ List.replicate 25 0 : List Nat).sum * 1)
      ((List.replicate 25 3 ++ List.replicate 25 0 : List Nat).length - 1) = some 3 := by decide
  have hd : dumpSizeOutliers (List.replicate 25 3 ++ List.replicate 25 0) =
      some (outerSweep (fun i v => sizeQual 1 3 i v) 0 100
        (List.replicate 25 3 ++ List.replicate 25 0) 0 0 []) := by
    simp only [dumpSizeOutliers, h1, Option.some_bind, h2, Option.map_some']
  have hq : ∀ t v, 1 < t → v ∈ (List.replicate 25 3 ++ List.replicate 25 0 : List Nat) →
      sizeQual 1 3 t v = false := by
    intro t v ht hv
    rcases List.mem_append.mp hv with h | h
    · have hv3 : v = 3 := List.eq_of_mem_replicate h
      subst hv3
      have h4 : 2 * 2 ≤ t * t := Nat.mul_le_mul ht ht
      simp [sizeQual]
      omega
    · have hv0 : v = 0 := List.eq_of_mem_replicate h
      subst hv0
      simp [sizeQual]
  have hcalm := outerSweepF_calm (fun i v => sizeQual 1 3 i v) 0 1 99
    (List.replicate 25 3 ++ List.replicate 25 0) 0 0 [] hq
  norm_num at hcalm
  rw [sweepCounts, hd, Option.map_some', outerSweep, hcalm]
  decide

/-- C4 (amended): in any sweep of either metric — the argument `qual`
abstracts the per-threshold qualification test, covering both the size
pass and the expansion-ratio pass — at most 21 samples are ever
reported: the `dumped_values > 20` guard admits exactly one report
beyond the claimed cap of 20. -/
theorem c4_cap_at_most_21 (α : Type) (qual : Nat → α → Bool) (zero : α)
    (i0 : Nat) (vals : List α) :
    (outerSweep qual zero i0 vals 0 0 []).1.dumped ≤ 21 ∧
    (outerSweep qual zero i0 vals 0 0 []).1.reported.length ≤ 21 := by
  have h1 := outerSweepF_dumped_le qual zero i0 i0 vals 0 0 [] (by omega)
  have h2 := outerSweepF_reported_len qual zero i0 i0 vals 0 0 []
  rw [outerSweep]
  refine ⟨h1, ?_⟩
  simp at h2
  omega

/-- C5 counterexample: 22 samples of 100 against 200 samples of 0 give
mean 9 and variance 905, so the large samples first qualify at
threshold k = 3; the cap is exceeded there (21 reported) and the sweep
then jumps: threshold 3 is visited, threshold 2 is never visited, and
threshold 1 is visited, where the leftover qualifying sample is counted
as skipped.  This refutes the claim that the sweep continues at
k = 2. -/
theorem c5_jump_counterexample :
    3 ∈ sweepVisited (List.replicate 22 100 ++ List.replicate 200 0) ∧
    2 ∉ sweepVisited (List.replicate 22 100 ++ List.replicate 200 0) ∧
    1 ∈ sweepVisited (List.replicate 22 100 ++ List.replicate 200 0) ∧
    sweepCounts (List.replicate 22 100 ++ List.replicate 200 0) = some (21, 1) := by
  have h1 : checkedDiv (List.replicate 22 100 ++ List.replicate 200 0 : List Nat).sum
      (List.replicate 22 100 ++ List.replicate 200 0 : List Nat).length = some 9 := by decide
  have h2 : checkedDiv
      (((List.replicate 22 100 ++ List.replicate 200 0 : List Nat).map (fun x => x * x)).sum -
        (List.replicate 22 100 ++ List.replicate 200 0 : List Nat).sum * 9)
      ((List.replicate 22 100 ++ List.replicate 200 0 : List Nat).length - 1) =
      some 905 := by decide
  have hd : dumpSizeOutliers (List.replicate 22 100 ++ List.replicate 200 0) =
      some (outerSweep (fun i v => sizeQual 9 905 i v) 0 100
        (List.replicate 22 100 ++ List.replicate 200 0) 0 0 []) := by
    simp only [dumpSizeOutliers, h1, Option.some_bind, h2, Option.map_some']
  have hq : ∀ t v, 3 < t → v ∈ (List.replicate 22 100 ++ List.replicate 200 0 : List Nat) →
      sizeQual 9 905 t v = false := by
    intro t v ht hv
    rcases List.mem_append.mp hv with h | h
    · have hv100 : v = 100 := List.eq_of_mem_replicate h
      subst hv100
      have h4 : 4 * 4 ≤ t * t := Nat.mul_le_mul ht ht
      simp [sizeQual]
      omega
    · have hv0 : v = 0 := List.eq_of_mem_replicate h
      subst hv0
      simp [sizeQual]
  have hcalm := outerSweepF_calm (fun i v => sizeQual 9 905 i v) 0 3 97
    (List.replicate 22 100 ++ List.replicate 200 0) 0 0 [] hq
  norm_num at hcalm
  have hvis : sweepVisited (List.replicate 22 100 ++ List.replicate 200 0) =
      descList 3 97 ++ (outerSweepF (fun i v => sizeQual 9 905 i v) 0 3 3
        (List.replicate 22 100 ++ List.replicate 200 0) 0 0 []).2 := by
    simp only [sweepVisited, hd, Option.map_some', Option.getD_some, outerSweep, hcalm]
  have hcnt : sweepCounts (List.replicate 22 100 ++ List.replicate 200 0) =
      some ((outerSweepF (fun i v => sizeQual 9 905 i v) 0 3 3
          (List.replicate 22 100 ++ List.replicate 200 0) 0 0 []).1.dumped,
        (outerSweepF (fun i v => sizeQual 9 905 i v) 0 3 3
          (List.replicate 22 100 ++ List.replicate 200 0) 0 0 []).1.skipped) := by
    simp only [sweepCounts, hd, Option.map_some', outerSweep, hcalm]
  rw [hvis, hcnt]
  refine ⟨by decide, by decide, by decide, by decide⟩

/-- C5 (amended): once the cap is exceeded while the threshold is still
greater than 1, the sweep continues directly at threshold 1 — the
source assigns `i = 2` and the loop decrement lands on 1 — so no
intermediate threshold is ever evaluated again; and at threshold 1,
every qualifying sample beyond the cap is counted as skipped instead of
being reported. -/
theorem c5_jump_lands_at_one (α : Type) (qual : Nat → α → Bool) (zero : α)
    (i : Nat) (vals : List α) (d s : Nat) (rep : List Nat) :
    ((innerSweep qual zero (i + 2) vals d s rep 0).2 = true →
      (outerSweep qual zero (i + 2) vals d s rep).2 = [i + 2, 1]) ∧
    (∀ (vals' : List α) (d' s' : Nat) (rep' : List Nat) (j : Nat), 20 < d' →
      innerSweep qual zero 1 vals' d' s' rep' j =
        (⟨vals', d', s' + vals'.countP (fun v => qual 1 v), rep'⟩, false)) := by
  constructor
  · intro hj
    rw [show i + 2 = (i + 1) + 1 from rfl] at hj ⊢
    rw [outerSweep, outerSweepF]
    dsimp only
    rw [hj, if_pos rfl, min_eq_left (by omega : (1 : Nat) ≤ i + 1), outerSweepF]
    dsimp only
    rw [Nat.min_zero, ite_self, outerSweepF_thr_zero]
  · intro vals' d' s' rep' j hd'
    exact innerSweep_one_beyond_cap qual zero vals' d' s' rep' j hd'

/-- Witness for the amended C5: with 22 always-qualifying samples the
cap is exceeded at threshold 2, and the sweep trace is exactly [2, 1];
beyond the cap at threshold 1, a qualifying sample is skipped, not
reported. -/
theorem c5_jump_lands_at_one_witness :
    (outerSweep (fun _ _ => true) () 2 (List.replicate 22 ()) 0 0 []).2 = [2, 1] ∧
    innerSweep (fun _ _ => true) () 1 [()] 21 0 [] 0 =
      (⟨[()], 21, 1, []⟩, false) := by
  have H := c5_jump_lands_at_one Unit (fun _ _ => true) () 0 (List.replicate 22 ()) 0 0 []
  constructor
  · exact H.1 (by decide)
  · have h2 := H.2 [()] 21 0 [] 0 (by decide)
    rw [h2]
    decide

end Oatdump
